import Mathlib

/-!
Verification of the message/tool translation and streaming-aggregation pipeline of
`libs/langchain-mistralai/src/chat_models.ts` (a Mistral chat-model adapter).

The source file contains two revisions of the module concatenated; where they differ
(the content translator `getContent`) both are embedded, as `getContent` (first
revision, lines 185-243) and `getContent2` (second revision, lines 1531-1577).

Modelling conventions:
* TypeScript exceptions are `Except String`; `throw` is `.error`, normal return `.ok`.
* `undefined`/`null` fields are `Option`; JS falsiness of a possibly-empty string is
  spelled out (`none` or `some ""`).
* External collaborators that are pure string transforms (`_convertToolCallIdToMistralCompatible`
  from `./utils.js`, `JSON.stringify` of tool arguments, `uuidv4`) are abstracted as
  function parameters, so every theorem quantifies over them.
* `JSON.parse` of tool-call arguments (inside `parseToolCall` from `@langchain/core`)
  is likewise an abstract fallible function parameter.
-/

namespace Mistral

/-! ## Role mapper: `getRole`, chat_models.ts lines 168-183 -/

/-- The abstract message types of the framework (`MessageType` from
`@langchain/core/messages`). -/
inductive MessageType
  | system
  | human
  | ai
  | generic
  | developer
  | function
  | tool
  | remove
  deriving DecidableEq

/-- The provider role vocabulary actually produced by `getRole`. -/
inductive MistralRole
  | system
  | user
  | assistant
  | tool
  deriving DecidableEq

/-- The string tag of a message type, as it appears interpolated in the
`Unknown message type: ${role}` error. -/
def roleTag : MessageType → String
  | .system => "system"
  | .human => "human"
  | .ai => "ai"
  | .generic => "generic"
  | .developer => "developer"
  | .function => "function"
  | .tool => "tool"
  | .remove => "remove"

/-- `getRole` (lines 168-183): switch over the abstract role, throwing on
anything outside the five handled tags. -/
def getRole : MessageType → Except String MistralRole
  | .human => .ok .user
  | .ai => .ok .assistant
  | .system => .ok .system
  | .tool => .ok .tool
  | .function => .ok .assistant
  | r => .error ("Unknown message type: " ++ roleTag r)

/-! ## Content translator: `getContent`, lines 185-243 (first revision) and
lines 1531-1577 (second revision) -/

/-- One element of array-shaped `MessageContent` (`MessageContentComplex`):
a text part, an image-url part, or a part with some other `type` tag. -/
inductive MessageContentComplex
  | text (s : String)
  | imageUrl (u : String)
  | other (tag : String)
  deriving DecidableEq

/-- Abstract message content: a plain string or an array of parts. -/
inductive MessageContent
  | str (s : String)
  | parts (l : List MessageContentComplex)
  deriving DecidableEq

/-- A provider `ContentChunk` produced by the translator. -/
inductive ContentChunk
  | text (s : String)
  | imageUrl (u : String)
  deriving DecidableEq

/-- Result shape of `getContent`: `string | ContentChunk[]`. -/
inductive ContentOut
  | str (s : String)
  | chunks (l : List ContentChunk)
  deriving DecidableEq

/-- Fail-fast effectful map, modelling JS `Array.prototype.map` over a callback
that may throw: either every element translates and the whole list is returned,
or the first exception aborts the map with no partial output. -/
def exceptMap (f : α → Except ε β) : List α → Except ε (List β)
  | [] => .ok []
  | a :: l =>
    match f a with
    | .error e => .error e
    | .ok b =>
      match exceptMap f l with
      | .error e => .error e
      | .ok bs => .ok (b :: bs)

/-- `getContent`, first revision (lines 185-243).  String content passes through;
array content is mapped per-part under the `user` and `system` mapped roles and
rejected wholesale for every other mapped role. -/
def getContent (content : MessageContent) (role : MessageType) :
    Except String ContentOut :=
  match getRole role with
  | .error e => .error e
  | .ok mistralRole =>
    match content with
    | .str s => .ok (.str s)
    | .parts l =>
      if mistralRole = .user then
        (exceptMap (fun p =>
          match p with
          | .imageUrl u => .ok (ContentChunk.imageUrl u)
          | .text s => .ok (ContentChunk.text s)
          | .other _ => .error
              "ChatMistralAI only supports messages of type MessageContentText and MessageContentImageUrl for role human") l).map
          ContentOut.chunks
      else if mistralRole = .system then
        (exceptMap (fun p =>
          match p with
          | .text s => .ok (ContentChunk.text s)
          | _ => .error
              "ChatMistralAI only supports messages of type MessageContentText for role system") l).map
          ContentOut.chunks
      else
        .error
          "ChatMistralAI does not support non text message content for role ai, tool, or function"

/-- `_generateContentChunk` (second revision, lines 1534-1557): translate one part
given the mapped provider role, throwing on any disallowed (type, role) pair. -/
def generateContentChunk (complex : MessageContentComplex) (role : MistralRole) :
    Except String ContentChunk :=
  match complex, role with
  | .imageUrl u, .user => .ok (.imageUrl u)
  | .text s, .user => .ok (.text s)
  | .text s, .system => .ok (.text s)
  | _, _ => .error
      "ChatMistralAI only supports messages of type MessageContentText for role human and system and MessageContentImageUrl for role human"

/-- `getContent`, second revision (lines 1531-1577).  Array content is mapped
through `_generateContentChunk` regardless of role. -/
def getContent2 (content : MessageContent) (role : MessageType) :
    Except String ContentOut :=
  match getRole role with
  | .error e => .error e
  | .ok mistralRole =>
    match content with
    | .str s => .ok (.str s)
    | .parts l =>
      (exceptMap (fun p => generateContentChunk p mistralRole) l).map ContentOut.chunks

/-- Boolean success test for `Except`. -/
def isOkE : Except ε α → Bool
  | .ok _ => true
  | .error _ => false

/-- Specification-side predicate: the part sequences the first revision of the
content translator accepts for a given mapped role. -/
def allowedPartsV1 (l : List MessageContentComplex) (mr : MistralRole) : Bool :=
  match mr with
  | .user => l.all (fun p =>
      match p with
      | .text _ => true
      | .imageUrl _ => true
      | .other _ => false)
  | .system => l.all (fun p =>
      match p with
      | .text _ => true
      | _ => false)
  | _ => false

/-- Specification-side predicate: the part sequences the second revision accepts.
It differs from the first revision only on the empty sequence under the
`assistant`/`tool` mapped roles, which the second revision accepts. -/
def allowedPartsV2 (l : List MessageContentComplex) (mr : MistralRole) : Bool :=
  match mr with
  | .user => allowedPartsV1 l .user
  | .system => allowedPartsV1 l .system
  | _ => l.isEmpty

theorem isOkE_exceptMap_map {f : α → Except ε β} {l : List α} {g : List β → γ} :
    isOkE ((exceptMap f l).map g) = l.all (fun a => isOkE (f a)) := by
  induction l with
  | nil => rfl
  | cons a l ih =>
    simp only [exceptMap, List.all_cons]
    cases hfa : f a with
    | error e => rfl
    | ok b =>
      rw [← ih]
      cases hl : exceptMap f l with
      | error e => rfl
      | ok bs => rfl

theorem allCongr {p q : α → Bool} (l : List α) (h : ∀ a, p a = q a) :
    l.all p = l.all q := by
  induction l with
  | nil => rfl
  | cons a l ih => simp only [List.all_cons, h, ih]

theorem allFalseIsEmpty (l : List α) : l.all (fun _ => false) = l.isEmpty := by
  cases l <;> rfl

/-- C5: the role mapper sends human to user, ai to assistant, system to system,
tool to tool and function to assistant; on every tag outside that closed set it
fails with an error naming the offending tag; and every successful result lies
in the provider vocabulary \x7bsystem, user, assistant, tool\x7d. -/
theorem claim_c5_role_mapper_total :
    getRole .human = .ok .user ∧
    getRole .ai = .ok .assistant ∧
    getRole .system = .ok .system ∧
    getRole .tool = .ok .tool ∧
    getRole .function = .ok .assistant ∧
    getRole .generic = .error ("Unknown message type: " ++ roleTag .generic) ∧
    getRole .developer = .error ("Unknown message type: " ++ roleTag .developer) ∧
    getRole .remove = .error ("Unknown message type: " ++ roleTag .remove) ∧
    (∀ r : MessageType,
      match getRole r with
      | .ok pr => pr = .system ∨ pr = .user ∨ pr = .assistant ∨ pr = .tool
      | .error e => e = "Unknown message type: " ++ roleTag r) := by
  refine ⟨rfl, rfl, rfl, rfl, rfl, rfl, rfl, rfl, ?_⟩
  intro r
  cases r <;> simp [getRole]

/-- C2 counterexample: the claim asserts that array-shaped content always fails
to translate when the mapped role is assistant or tool, but the second revision
of `getContent` (lines 1531-1577) successfully translates the empty part
sequence of an ai message to an empty chunk list. -/
theorem claim_c2_counterexample :
    getContent2 (MessageContent.parts []) MessageType.ai =
      .ok (ContentOut.chunks []) ∧
    isOkE (getContent2 (MessageContent.parts []) MessageType.ai) = true := by
  exact ⟨rfl, rfl⟩

/-- C2 (amended): array-shaped content fails with a content-shape error (and
yields no partial output) exactly as the claim states for the first revision of
`getContent`; for the second revision the same holds except that an empty part
sequence under an assistant- or tool-mapped role translates successfully to an
empty chunk list.  Success is exactly: every part is text or image-reference
under the user role, every part is text under the system role, and (second
revision only) the empty sequence under any other mapped role. -/
theorem claim_c2_content_shape :
    ∀ (l : List MessageContentComplex) (mt : MessageType),
      match getRole mt with
      | .ok mr =>
          isOkE (getContent (.parts l) mt) = allowedPartsV1 l mr ∧
          isOkE (getContent2 (.parts l) mt) = allowedPartsV2 l mr
      | .error _ =>
          isOkE (getContent (.parts l) mt) = false ∧
          isOkE (getContent2 (.parts l) mt) = false := by
  intro l mt
  cases mt
  case system =>
    refine ⟨?_, ?_⟩
    · show isOkE ((exceptMap _ l).map ContentOut.chunks) = _
      rw [isOkE_exceptMap_map]
      exact allCongr l (fun p => by cases p <;> rfl)
    · show isOkE ((exceptMap _ l).map ContentOut.chunks) = _
      rw [isOkE_exceptMap_map]
      exact allCongr l (fun p => by cases p <;> rfl)
  case human =>
    refine ⟨?_, ?_⟩
    · show isOkE ((exceptMap _ l).map ContentOut.chunks) = _
      rw [isOkE_exceptMap_map]
      exact allCongr l (fun p => by cases p <;> rfl)
    · show isOkE ((exceptMap _ l).map ContentOut.chunks) = _
      rw [isOkE_exceptMap_map]
      exact allCongr l (fun p => by cases p <;> rfl)
  case ai =>
    refine ⟨rfl, ?_⟩
    show isOkE ((exceptMap _ l).map ContentOut.chunks) = _
    rw [isOkE_exceptMap_map]
    rw [allCongr l (q := fun _ => false) (fun p => by cases p <;> rfl)]
    exact allFalseIsEmpty l
  case function =>
    refine ⟨rfl, ?_⟩
    show isOkE ((exceptMap _ l).map ContentOut.chunks) = _
    rw [isOkE_exceptMap_map]
    rw [allCongr l (q := fun _ => false) (fun p => by cases p <;> rfl)]
    exact allFalseIsEmpty l
  case tool =>
    refine ⟨rfl, ?_⟩
    show isOkE ((exceptMap _ l).map ContentOut.chunks) = _
    rw [isOkE_exceptMap_map]
    rw [allCongr l (q := fun _ => false) (fun p => by cases p <;> rfl)]
    exact allFalseIsEmpty l
  case generic => exact ⟨rfl, rfl⟩
  case developer => exact ⟨rfl, rfl⟩
  case remove => exact ⟨rfl, rfl⟩

/-! ## Outbound message builder: `convertMessagesToMistralMessages`, lines 165-292 -/

/-- A structured tool call carried by an assistant message (`ToolCall` from
`@langchain/core/messages/tool`).  The JSON serialization of its argument
object performed by `convertLangChainToolCallToOpenAI` is abstracted: `args`
is carried as its serialized string form. -/
structure LCToolCall where
  id : Option String
  name : String
  args : String
  deriving DecidableEq

/-- A legacy tool call from `additional_kwargs.tool_calls` (OpenAI wire shape):
an id plus a function payload. -/
structure KwToolCall where
  id : String
  fnName : String
  fnArgs : String
  deriving DecidableEq

/-- An outbound provider tool call (id, type \"function\", function payload). -/
structure MistralToolCall where
  id : String
  fnName : String
  fnArgs : String
  deriving DecidableEq

/-- The abstract framework message (`BaseMessage`).  `toolCallId` is the
`tool_call_id` field present (as a string) only on tool-result messages;
`toolCalls` are the structured tool calls of an AI message; `kwargsToolCalls`
is `additional_kwargs.tool_calls`. -/
structure BaseMessage where
  msgType : MessageType
  content : MessageContent
  name : Option String := none
  toolCallId : Option String := none
  toolCalls : List LCToolCall := []
  kwargsToolCalls : List KwToolCall := []
  deriving DecidableEq

/-- One outbound provider message.  The three JS object shapes
(`\{role, content, name, toolCallId\}`, `\{role, content, toolCalls\}`,
`\{role, content\}`) are one structure whose absent fields are `none`. -/
structure MistralMessage where
  role : MistralRole
  content : ContentOut
  name : Option String := none
  toolCallId : Option String := none
  toolCalls : Option (List MistralToolCall) := none
  deriving DecidableEq

/-- `getTools` (lines 245-264): structured tool calls of an AI message are
re-expressed with coerced ids; otherwise legacy kwargs tool calls are used when
present; otherwise no tool-call list is produced.  `coerceId` stands for the
external pure string transform `_convertToolCallIdToMistralCompatible`. -/
def getTools (coerceId : String → String) (m : BaseMessage) :
    Option (List MistralToolCall) :=
  if m.msgType = .ai ∧ m.toolCalls ≠ [] then
    some (m.toolCalls.map (fun tc => ⟨coerceId (tc.id.getD ""), tc.name, tc.args⟩))
  else if m.kwargsToolCalls.isEmpty then none
  else some (m.kwargsToolCalls.map (fun tc => ⟨coerceId tc.id, tc.fnName, tc.fnArgs⟩))

/-- The per-message body of `convertMessagesToMistralMessages` (lines 266-291):
compute tools and content (content translation may throw), then dispatch on the
message kind, with the `tool_call_id` test taking precedence over the AI test. -/
def convertOne (coerceId : String → String) (m : BaseMessage) :
    Except String MistralMessage :=
  match getContent m.content m.msgType with
  | .error e => .error e
  | .ok content =>
    match getRole m.msgType with
    | .error e => .error e
    | .ok role =>
      match m.toolCallId with
      | some tcid =>
          .ok { role := role, content := content, name := m.name,
                toolCallId := some (coerceId tcid) }
      | none =>
          if m.msgType = .ai then
            .ok { role := role, content := content,
                  toolCalls := getTools coerceId m }
          else
            .ok { role := role, content := content }

/-- `convertMessagesToMistralMessages` (lines 165-292): `messages.map(...)`,
all-or-nothing because any per-message throw aborts the whole map. -/
def convertMessagesToMistralMessages (coerceId : String → String)
    (msgs : List BaseMessage) : Except String (List MistralMessage) :=
  exceptMap (convertOne coerceId) msgs

/-- Specification-side shape of one translated message, following the claim:
role and content come from the role mapper and content translator, and the
remaining fields are fixed by the message kind. -/
def shapeClaim (coerceId : String → String) (m : BaseMessage)
    (om : MistralMessage) : Prop :=
  getRole m.msgType = .ok om.role ∧
  getContent m.content m.msgType = .ok om.content ∧
  om.toolCallId = m.toolCallId.map coerceId ∧
  om.name = (if m.toolCallId.isSome then m.name else none) ∧
  om.toolCalls =
    (if m.toolCallId = none ∧ m.msgType = .ai then getTools coerceId m else none)

theorem exceptMap_ok_spec {f : α → Except ε β} :
    ∀ {l : List α} {bs : List β}, exceptMap f l = .ok bs →
      bs.length = l.length ∧
      ∀ k : Nat,
        match l.get? k, bs.get? k with
        | some a, some b => f a = .ok b
        | none, none => True
        | _, _ => False := by
  intro l
  induction l with
  | nil =>
    intro bs h
    cases h
    exact ⟨rfl, fun k => by cases k <;> trivial⟩
  | cons a l ih =>
    intro bs h
    simp only [exceptMap] at h
    cases hfa : f a with
    | error e => rw [hfa] at h; cases h
    | ok b =>
      rw [hfa] at h
      cases hl : exceptMap f l with
      | error e => rw [hl] at h; cases h
      | ok bs' =>
        rw [hl] at h
        cases h
        obtain ⟨hlen, hget⟩ := ih hl
        refine ⟨by simp [hlen], ?_⟩
        intro k
        cases k with
        | zero => exact hfa
        | succ k => exact hget k

theorem convertOne_shape {coerceId : String → String} {m : BaseMessage}
    {om : MistralMessage} (h : convertOne coerceId m = .ok om) :
    shapeClaim coerceId m om := by
  unfold convertOne at h
  cases hc : getContent m.content m.msgType with
  | error e => rw [hc] at h; cases h
  | ok content =>
    rw [hc] at h
    cases hr : getRole m.msgType with
    | error e => rw [hr] at h; cases h
    | ok role =>
      rw [hr] at h
      unfold shapeClaim
      cases htc : m.toolCallId with
      | some tcid =>
        rw [htc] at h
        cases hmt : m.msgType <;> rw [hmt] at h hr hc <;> cases h <;>
          exact ⟨hr, hc, rfl, rfl, rfl⟩
      | none =>
        rw [htc] at h
        cases hmt : m.msgType <;> rw [hmt] at h hr hc <;> cases h <;>
          exact ⟨hr, hc, rfl, rfl, rfl⟩

/-- C4: the outbound message builder translates n messages to exactly n
provider messages, in order, one-to-one, each output's shape determined by the
input's kind: a message bearing a string `tool_call_id` yields role, content,
name and the coerced id; an AI message yields role, content and the normalized
tool calls; every other message yields role and content only. -/
theorem claim_c4_outbound_builder (coerceId : String → String)
    (msgs : List BaseMessage) (out : List MistralMessage)
    (h : convertMessagesToMistralMessages coerceId msgs = .ok out) :
    out.length = msgs.length ∧
    ∀ k : Nat,
      match msgs.get? k, out.get? k with
      | some m, some om => convertOne coerceId m = .ok om ∧ shapeClaim coerceId m om
      | none, none => True
      | _, _ => False := by
  obtain ⟨hlen, hget⟩ := exceptMap_ok_spec h
  refine ⟨hlen, ?_⟩
  intro k
  have hk := hget k
  cases hm : msgs.get? k with
  | none =>
    rw [hm] at hk
    cases ho : out.get? k with
    | none => trivial
    | some om => rw [ho] at hk; exact hk
  | some m =>
    rw [hm] at hk
    cases ho : out.get? k with
    | none => rw [ho] at hk; exact hk
    | some om =>
      rw [ho] at hk
      exact ⟨hk, convertOne_shape hk⟩

/-- Concrete input for the C4 witness: a human message, a tool-result message
and an AI message carrying one structured tool call. -/
def msgsEx : List BaseMessage :=
  [ { msgType := .human, content := .str "hi" },
    { msgType := .tool, content := .str "result", name := some "calc",
      toolCallId := some "abc" },
    { msgType := .ai, content := .str "",
      toolCalls := [⟨some "id1", "f", "1"⟩] } ]

/-- The translation of `msgsEx` under the identity id-coercion. -/
def outEx : List MistralMessage :=
  [ { role := .user, content := .str "hi" },
    { role := .tool, content := .str "result", name := some "calc",
      toolCallId := some "abc" },
    { role := .assistant, content := .str "",
      toolCalls := some [⟨"id1", "f", "1"⟩] } ]

/-- Witness for C4 at a concrete input. -/
theorem claim_c4_witness :
    outEx.length = msgsEx.length ∧
    ∀ k : Nat,
      match msgsEx.get? k, outEx.get? k with
      | some m, some om =>
          convertOne (fun s => s) m = .ok om ∧ shapeClaim (fun s => s) m om
      | none, none => True
      | _, _ => False :=
  claim_c4_outbound_builder (fun s => s) msgsEx outEx rfl

/-! ## Non-stream response decoder: `mistralAIResponseToChatMessage`, lines 294-342 -/

/-- A raw provider tool call (`MistralAIToolCall`): optional id, function name
and arguments carried in their string encoding. -/
structure RawToolCall where
  id : Option String
  fnName : Option String
  fnArgs : String
  deriving DecidableEq

/-- A canonical parsed tool call: name, parsed args, id. -/
structure ParsedToolCall where
  name : Option String
  args : String
  id : Option String
  deriving DecidableEq

/-- An `InvalidToolCall` record: the raw payload preserved plus the parse error
text. -/
structure InvalidToolCall where
  name : Option String
  args : Option String
  id : Option String
  error : String
  deriving DecidableEq

/-- Modelled from the spec: `parseToolCall` from
`@langchain/core/output_parsers/openai_tools` is code of this repository that is
not under `src/`.  Per the spec it attempts to parse a raw tool call into a
canonical name/args/id triple, failing exactly when the argument string fails to
parse; the JSON parser itself is abstracted as the fallible `parseArgs`. -/
def parseToolCallM (parseArgs : String → Except String String)
    (raw : RawToolCall) : Except String ParsedToolCall :=
  match parseArgs raw.fnArgs with
  | .error e => .error e
  | .ok args => .ok ⟨raw.fnName, args, raw.id⟩

/-- Modelled from the spec: `makeInvalidToolCall` from `@langchain/core` (not
under `src/`) records the raw payload (name, raw args, id) and the error text. -/
def makeInvalidToolCall (raw : RawToolCall) (errMsg : String) : InvalidToolCall :=
  ⟨raw.fnName, some raw.fnArgs, raw.id, errMsg⟩

/-- The tool-call loop of the assistant branch (lines 311-324): each raw call is
parsed; successes are collected with `id = parsed.id ?? uuidv4()`, failures are
collected as `InvalidToolCall`s.  The uuid generator is abstracted as `fresh`,
indexed by how many ids have been synthesized so far. -/
def decodeToolCalls (parseArgs : String → Except String String)
    (fresh : Nat → String) :
    Nat → List RawToolCall → List ParsedToolCall × List InvalidToolCall
  | _, [] => ([], [])
  | k, raw :: rest =>
    match parseToolCallM parseArgs raw with
    | .error e =>
      let r := decodeToolCalls parseArgs fresh k rest
      (r.1, makeInvalidToolCall raw e :: r.2)
    | .ok p =>
      match p.id with
      | some _ =>
        let r := decodeToolCalls parseArgs fresh k rest
        (p :: r.1, r.2)
      | none =>
        let r := decodeToolCalls parseArgs fresh (k + 1) rest
        ({ p with id := some (fresh k) } :: r.1, r.2)

/-- Provider token usage (`UsageInfo`). -/
structure UsageInfo where
  promptTokens : Nat
  completionTokens : Nat
  totalTokens : Nat
  deriving DecidableEq

/-- Framework usage metadata (input/output/total), mapped 1:1 from `UsageInfo`. -/
structure UsageMeta where
  inputTokens : Nat
  outputTokens : Nat
  totalTokens : Nat
  deriving DecidableEq

/-- The usage-metadata mapping done in lines 330-336. -/
def usageToMetadata (u : UsageInfo) : UsageMeta :=
  ⟨u.promptTokens, u.completionTokens, u.totalTokens⟩

/-- The complete message inside one provider response choice. -/
structure RespMessage where
  role : String
  content : Option String
  toolCalls : List RawToolCall
  deriving DecidableEq

/-- One provider response choice; its message may be missing. -/
structure RespChoice where
  message : Option RespMessage
  deriving DecidableEq

/-- The decoded framework message: an AI message with tool calls, invalid tool
calls and optional usage metadata, or the plain human message the default
branch degrades to. -/
inductive DecodedMessage
  | ai (content : String) (toolCalls : List ParsedToolCall)
      (invalidToolCalls : List InvalidToolCall) (usage : Option UsageMeta)
  | human (content : String)
  deriving DecidableEq

/-- `mistralAIResponseToChatMessage` (lines 294-342). -/
def mistralAIResponseToChatMessage (parseArgs : String → Except String String)
    (fresh : Nat → String) (choice : RespChoice) (usage : Option UsageInfo) :
    Except String DecodedMessage :=
  match choice.message with
  | none => .error "No message found in response"
  | some message =>
    if message.role = "assistant" then
      let r := decodeToolCalls parseArgs fresh 0 message.toolCalls
      .ok (.ai (message.content.getD "") r.1 r.2 (usage.map usageToMetadata))
    else
      .ok (.human (message.content.getD ""))

theorem decodeToolCalls_invalid (parseArgs : String → Except String String)
    (fresh : Nat → String) :
    ∀ (raws : List RawToolCall) (k : Nat),
      (decodeToolCalls parseArgs fresh k raws).2 =
        raws.filterMap (fun raw =>
          match parseArgs raw.fnArgs with
          | .error e => some ⟨raw.fnName, some raw.fnArgs, raw.id, e⟩
          | .ok _ => none) := by
  intro raws
  induction raws with
  | nil => intro k; rfl
  | cons raw rest ih =>
    intro k
    simp only [decodeToolCalls, parseToolCallM, List.filterMap_cons]
    cases hp : parseArgs raw.fnArgs with
    | error e => simp only [ih k, makeInvalidToolCall]
    | ok args =>
      cases raw.id with
      | some i => simp only [ih k]
      | none => simp only [ih (k + 1)]

theorem decodeToolCalls_valid (parseArgs : String → Except String String)
    (fresh : Nat → String) :
    ∀ (raws : List RawToolCall) (k0 : Nat) (k : Nat),
      match (raws.filter (fun raw => isOkE (parseArgs raw.fnArgs))).get? k,
            (decodeToolCalls parseArgs fresh k0 raws).1.get? k with
      | some raw, some tc =>
          tc.name = raw.fnName ∧ parseArgs raw.fnArgs = .ok tc.args ∧
          (match raw.id with
           | some i => tc.id = some i
           | none => ∃ n : Nat, tc.id = some (fresh n))
      | none, none => True
      | _, _ => False := by
  intro raws
  induction raws with
  | nil =>
    intro k0 k
    cases k <;> trivial
  | cons raw rest ih =>
    intro k0 k
    simp only [decodeToolCalls, parseToolCallM]
    cases hp : parseArgs raw.fnArgs with
    | error e =>
      have hf : (List.filter (fun raw => isOkE (parseArgs raw.fnArgs)) (raw :: rest))
          = List.filter (fun raw => isOkE (parseArgs raw.fnArgs)) rest := by
        rw [List.filter_cons_of_neg]
        rw [hp]
        exact fun hcon => Bool.noConfusion hcon
      rw [hf]
      exact ih k0 k
    | ok args =>
      have hf : (List.filter (fun raw => isOkE (parseArgs raw.fnArgs)) (raw :: rest))
          = raw :: List.filter (fun raw => isOkE (parseArgs raw.fnArgs)) rest := by
        rw [List.filter_cons_of_pos]
        rw [hp]
        rfl
      rw [hf]
      cases hid : raw.id with
      | some i =>
        cases k with
        | zero =>
          refine ⟨rfl, by rw [hp], ?_⟩
          rw [hid]
        | succ k => exact ih k0 k
      | none =>
        cases k with
        | zero =>
          refine ⟨rfl, by rw [hp], ?_⟩
          rw [hid]
          exact ⟨k0, rfl⟩
        | succ k => exact ih (k0 + 1) k

/-- C3: decoding an assistant response message iterates all raw tool calls;
every call whose arguments fail to parse is recorded as an `InvalidToolCall`
preserving the raw payload and the error text instead of throwing; every
well-formed call is returned, in order, as a valid tool call whose id is the
provider's id or a freshly synthesized identifier when the provider omitted it;
and decoding of the response as a whole succeeds. -/
theorem claim_c3_invalid_tool_call_recovery
    (parseArgs : String → Except String String) (fresh : Nat → String)
    (content : Option String) (raws : List RawToolCall)
    (usage : Option UsageInfo) :
    ∃ tcs inv,
      mistralAIResponseToChatMessage parseArgs fresh
          ⟨some ⟨"assistant", content, raws⟩⟩ usage
        = .ok (.ai (content.getD "") tcs inv (usage.map usageToMetadata)) ∧
      inv = raws.filterMap (fun raw =>
        match parseArgs raw.fnArgs with
        | .error e => some ⟨raw.fnName, some raw.fnArgs, raw.id, e⟩
        | .ok _ => none) ∧
      (∀ k : Nat,
        match (raws.filter (fun raw => isOkE (parseArgs raw.fnArgs))).get? k,
              tcs.get? k with
        | some raw, some tc =>
            tc.name = raw.fnName ∧ parseArgs raw.fnArgs = .ok tc.args ∧
            (match raw.id with
             | some i => tc.id = some i
             | none => ∃ n : Nat, tc.id = some (fresh n))
        | none, none => True
        | _, _ => False) := by
  refine ⟨(decodeToolCalls parseArgs fresh 0 raws).1,
          (decodeToolCalls parseArgs fresh 0 raws).2, rfl, ?_, ?_⟩
  · exact decodeToolCalls_invalid parseArgs fresh raws 0
  · exact fun k => decodeToolCalls_valid parseArgs fresh raws 0 k

/-! ## Streaming delta decoder: `_convertDeltaToMessageChunk`, lines 344-436 -/

/-- One streaming delta: optional role, `content?: string | null` (JS-falsy when
`none` or `some ""`), and `tool_calls?: MistralAIToolCall[] | null` (`none`
models null/undefined; an empty array is `some []`, which is JS-truthy). -/
structure Delta where
  role : Option String
  content : Option String
  toolCalls : Option (List RawToolCall)
  deriving DecidableEq

/-- One emitted `ToolCallChunk` (name, args, id, index). -/
structure ToolCallChunkOut where
  name : Option String
  args : String
  id : String
  index : Nat
  deriving DecidableEq

/-- The message chunk produced by the delta decoder.  `kwargsEmptyObject`
records whether `additional_kwargs` was set to the empty object (true on the
path where no indexed tool-call list was built, false where it was left
undefined). -/
inductive MessageChunk
  | human (content : String)
  | ai (content : String) (toolCallChunks : List ToolCallChunkOut)
      (kwargsEmptyObject : Bool) (usage : Option UsageMeta)
  | tool (content : String) (kwargsEmptyObject : Bool) (toolCallId : String)
  | function (content : String) (kwargsEmptyObject : Bool)
  | chat (content : String) (role : String)
  deriving DecidableEq

/-- The indexed raw tool calls built in lines 370-379: present only when the
delta's tool-call list is present and non-empty; each element gets its position
as `index` and a synthesized id when the provider omitted one. -/
def rawToolCallChunksWithIndex (fresh : Nat → String)
    (toolCalls : Option (List RawToolCall)) :
    Option (List (RawToolCall × Nat × String)) :=
  match toolCalls with
  | none => none
  | some l =>
    if l.length ≠ 0 then
      some ((l.enum).map (fun p => (p.2, p.1, p.2.id.getD (fresh p.1))))
    else none

/-- The JS expression `rawToolCallChunksWithIndex?.[0].id ?? ""` of line 426:
optional chaining turns an absent list into `undefined` (then `""`), but an
empty present list would fault on reading `.id` of `undefined`. -/
def firstFragmentId :
    Option (List (RawToolCall × Nat × String)) → Except String String
  | none => .ok ""
  | some [] => .error "TypeError: cannot read properties of undefined"
  | some (f :: _) => .ok f.2.2

/-- `_convertDeltaToMessageChunk` (lines 344-436).  Returns `.ok none` where the
JS returns null, and `.error` where the JS would throw. -/
def convertDeltaToMessageChunk (fresh : Nat → String) (delta : Delta)
    (usage : Option UsageInfo) : Except String (Option MessageChunk) :=
  if (delta.content = none ∨ delta.content = some "") ∧ delta.toolCalls = none then
    match usage with
    | some u => .ok (some (.ai "" [] false (some (usageToMetadata u))))
    | none => .ok none
  else
    let rawWithIndex := rawToolCallChunksWithIndex fresh delta.toolCalls
    let role := delta.role.getD "assistant"
    let content := delta.content.getD ""
    let toolCallChunks :=
      match rawWithIndex with
      | some l => l.map (fun p => ToolCallChunkOut.mk p.1.fnName p.1.fnArgs p.2.2 p.2.1)
      | none => []
    let kwargsEmptyObject := rawWithIndex.isNone
    if role = "user" then .ok (some (.human content))
    else if role = "assistant" then
      .ok (some (.ai content toolCallChunks kwargsEmptyObject
        (usage.map usageToMetadata)))
    else if role = "tool" then
      match firstFragmentId rawWithIndex with
      | .error e => .error e
      | .ok tid => .ok (some (.tool content kwargsEmptyObject tid))
    else if role = "function" then
      .ok (some (.function content kwargsEmptyObject))
    else .ok (some (.chat content role))

/-- C6 counterexample: the claim covers every delta whose content and tool-calls
are "both empty or absent", but a delta whose tool-call list is the empty array
(JS-truthy) with empty content and no usage yields an assistant chunk, not
nothing. -/
theorem claim_c6_counterexample :
    convertDeltaToMessageChunk (fun _ => "") ⟨none, some "", some []⟩ none =
      .ok (some (.ai "" [] true none)) ∧
    convertDeltaToMessageChunk (fun _ => "") ⟨none, some "", some []⟩ none ≠
      .ok none := by
  constructor
  · rfl
  · intro h
    exact Option.noConfusion (Except.ok.inj h)

/-- C6 (amended): for every delta whose content is empty or absent and whose
tool-call list is absent (null/undefined — an empty tool-call array counts as
present), the decoder produces nothing when no usage snapshot is supplied, and
an empty-content assistant chunk carrying only the usage metadata when one is;
a delta with empty content but a present (empty) tool-call array instead
produces an ordinary empty assistant chunk. -/
theorem claim_c6_empty_delta (fresh : Nat → String) (role : Option String)
    (usage : Option UsageInfo) :
    (convertDeltaToMessageChunk fresh ⟨role, none, none⟩ usage =
      match usage with
      | some u => .ok (some (.ai "" [] false (some (usageToMetadata u))))
      | none => .ok none) ∧
    (convertDeltaToMessageChunk fresh ⟨role, some "", none⟩ usage =
      match usage with
      | some u => .ok (some (.ai "" [] false (some (usageToMetadata u))))
      | none => .ok none) ∧
    (convertDeltaToMessageChunk fresh ⟨none, some "", some []⟩ usage =
      .ok (some (.ai "" [] true (usage.map usageToMetadata)))) := by
  refine ⟨?_, ?_, ?_⟩ <;> cases usage <;> rfl

/-- C7: for every delta with role "tool" (outside the empty-delta early return),
the produced tool-result chunk's id is the first indexed tool-call fragment's id
when the delta carries a non-empty tool-call list (the provider id, or the
synthesized one when absent), and the empty string otherwise; the optional-chain
indexing never faults because the indexed list is only built non-empty, so the
decoder never returns an error. -/
theorem claim_c7_tool_chunk_id (fresh : Nat → String) (content : Option String)
    (tcs : Option (List RawToolCall)) (usage : Option UsageInfo) :
    convertDeltaToMessageChunk fresh ⟨some "tool", content, tcs⟩ usage =
      if (content = none ∨ content = some "") ∧ tcs = none then
        match usage with
        | some u => .ok (some (.ai "" [] false (some (usageToMetadata u))))
        | none => .ok none
      else
        .ok (some (.tool (content.getD "")
          (match tcs with
           | some (_ :: _) => false
           | _ => true)
          (match tcs with
           | some (t :: _) => t.id.getD (fresh 0)
           | _ => ""))) := by
  cases tcs with
  | none =>
    by_cases hcond : content = none ∨ content = some ""
    · have hcond2 : (content = none ∨ content = some "") ∧
          (none : Option (List RawToolCall)) = none := ⟨hcond, rfl⟩
      unfold convertDeltaToMessageChunk
      rw [if_pos hcond2, if_pos hcond2]
    · have hcond2 : ¬((content = none ∨ content = some "") ∧
          (none : Option (List RawToolCall)) = none) := fun hc => hcond hc.1
      unfold convertDeltaToMessageChunk
      rw [if_neg hcond2, if_neg hcond2]
      rfl
  | some l =>
    have hcond2 : ¬((content = none ∨ content = some "") ∧
        some l = (none : Option (List RawToolCall))) :=
      fun hc => Option.noConfusion hc.2
    unfold convertDeltaToMessageChunk
    rw [if_neg hcond2, if_neg hcond2]
    cases l with
    | nil => rfl
    | cons t ts => rfl

/-! ## Transport error reclassification: `completionWithRetry`, lines 948-959 -/

/-- Does `sub` occur at the start of `s`? (character-list prefix test). -/
def startsWithChars : List Char → List Char → Bool
  | _, [] => true
  | [], _ :: _ => false
  | a :: s, b :: t => a = b && startsWithChars s t

/-- Does `sub` occur anywhere in the character list? -/
def containsChars (sub : List Char) : List Char → Bool
  | [] => sub.isEmpty
  | c :: rest => startsWithChars (c :: rest) sub || containsChars sub rest

/-- JS `s.includes(sub)`. -/
def strContains (s sub : String) : Bool := containsChars sub.toList s.toList

/-- A thrown transport error: its message (possibly absent), its `status`
field, and the rest of its payload carried opaquely. -/
structure TransportError where
  message : Option String
  status : Option Nat
  payload : String
  deriving DecidableEq

/-- The message test of lines 951-955; an absent message makes every disjunct
falsy through optional chaining. -/
def matches400 (msg : Option String) : Bool :=
  match msg with
  | none => false
  | some m =>
    strContains m "status: 400" || strContains m.toLower "status 400" ||
      strContains m "validation failed"

/-- The catch block (lines 949-958): the error is rethrown, with `status = 400`
attached first when the message matches. -/
def reclassifyError (e : TransportError) : TransportError :=
  if matches400 e.message then { e with status := some 400 } else e

/-- `completionWithRetry`'s try/catch around the transport call, the transport
outcome abstracted as an `Except`: a normal result is returned as-is, a thrown
error is rethrown (possibly reclassified), never swallowed. -/
def completionWithRetryModel (transport : Except TransportError ρ) :
    Except TransportError ρ :=
  match transport with
  | .ok r => .ok r
  | .error e => .error (reclassifyError e)

/-- Specification-side restatement of the reclassified error, in the claim's
wording: status set to 400 when the message contains "status: 400" or
"validation failed", or contains "status 400" after lowercasing; all other
fields intact; otherwise the error unchanged. -/
def claimReclassified (e : TransportError) : TransportError :=
  if (match e.message with
      | some m =>
          strContains m "status: 400" ||
          strContains m "validation failed" ||
          strContains m.toLower "status 400"
      | none => false)
  then ⟨e.message, some 400, e.payload⟩
  else e

theorem reclassify_eq_claim (e : TransportError) :
    reclassifyError e = claimReclassified e := by
  unfold reclassifyError claimReclassified
  cases hm : e.message with
  | none => rfl
  | some m =>
    have hb : matches400 (some m) =
        (strContains m "status: 400" || strContains m "validation failed" ||
          strContains m.toLower "status 400") := by
      show (strContains m "status: 400" || strContains m.toLower "status 400" ||
          strContains m "validation failed") = _
      cases strContains m "status: 400" <;>
        cases strContains m.toLower "status 400" <;>
        cases strContains m "validation failed" <;> rfl
    rw [hb]

/-- C8: a transport error whose message contains "status: 400" or "validation
failed", or contains "status 400" after lowercasing, is rethrown with its
status field set to 400 and all other fields intact; every other error is
rethrown unchanged; a normal transport result is returned unchanged, so no
error is swallowed or converted into a normal return. -/
theorem claim_c8_error_reclassification (ρ : Type)
    (transport : Except TransportError ρ) :
    completionWithRetryModel transport =
      match transport with
      | .ok r => .ok r
      | .error e => .error (claimReclassified e) := by
  cases transport with
  | ok r => rfl
  | error e =>
    show (Except.error (reclassifyError e) : Except TransportError ρ) =
      Except.error (claimReclassified e)
    rw [reclassify_eq_claim]

/-! ## Streaming usage flag: field default (line 826), constructor (line 847),
per-event use (lines 1074-1078) -/

/-- The class-field initializer `streamUsage = true` (line 826). -/
def defaultStreamUsage : Bool := true

/-- The constructor's `this.streamUsage = fields?.streamUsage ?? this.streamUsage`
(line 847), starting from the field default. -/
def constructedStreamUsage (fieldsStreamUsage : Option Bool) : Bool :=
  fieldsStreamUsage.getD defaultStreamUsage

/-- The per-event flag `this.streamUsage || options.streamUsage` (line 1074);
an absent call option is falsy. -/
def shouldStreamUsage (instanceFlag : Bool) (optionFlag : Option Bool) : Bool :=
  instanceFlag || optionFlag.getD false

/-- C9: the effective per-event usage flag is off exactly when the instance was
constructed with `streamUsage: false` and the call option is absent or false;
in particular, for an instance constructed without the option (default true) or
with `streamUsage: true`, no per-call option — including `streamUsage: false` —
ever disables usage attachment. -/
theorem claim_c9_stream_usage_flag :
    (∀ ctor opt : Option Bool,
      (shouldStreamUsage (constructedStreamUsage ctor) opt = false ↔
        ctor = some false ∧ opt.getD false = false)) ∧
    (∀ opt : Option Bool,
      shouldStreamUsage (constructedStreamUsage none) opt = true) ∧
    (∀ opt : Option Bool,
      shouldStreamUsage (constructedStreamUsage (some true)) opt = true) := by
  refine ⟨?_, ?_, ?_⟩
  · intro ctor opt
    cases ctor with
    | none => cases opt with
      | none => simp [shouldStreamUsage, constructedStreamUsage, defaultStreamUsage]
      | some b => cases b <;>
          simp [shouldStreamUsage, constructedStreamUsage, defaultStreamUsage]
    | some c => cases c <;> cases opt with
      | none => simp [shouldStreamUsage, constructedStreamUsage, defaultStreamUsage]
      | some b => cases b <;>
          simp [shouldStreamUsage, constructedStreamUsage, defaultStreamUsage]
  · intro opt
    rfl
  · intro opt
    rfl

/-! ## Streaming loop: `_streamResponseChunks`, lines 1044-1099 -/

/-- One choice inside a streaming event: an optional index and an optional
delta (`none` models both an absent `delta` key and a null delta, which the
loop treats alike by skipping). -/
structure StreamChoice where
  index : Option Nat
  delta : Option Delta
  deriving DecidableEq

/-- One streaming event payload (`data`): its choices array and an optional
usage snapshot. -/
structure StreamEvent where
  choices : List StreamChoice
  usage : Option UsageInfo
  deriving DecidableEq

/-- One emitted `ChatGenerationChunk`: message, text, and the
`generationInfo` token indices (prompt, completion). -/
structure GenerationChunkOut where
  message : MessageChunk
  text : String
  promptIndex : Nat
  completionIndex : Nat
  deriving DecidableEq

/-- The per-event body of the streaming loop (lines 1057-1098), cancellation
check aside: only `data?.choices[0]` is examined; events with no first choice
or no delta are skipped; a null converted message is skipped; otherwise a
generation chunk is emitted with text `delta.content ?? ""` and completion
index `choice.index ?? 0`. -/
def processEvent (fresh : Nat → String) (instanceFlag : Bool)
    (optionFlag : Option Bool) (data : StreamEvent) :
    Except String (Option GenerationChunkOut) :=
  match data.choices.head? with
  | none => .ok none
  | some choice =>
    match choice.delta with
    | none => .ok none
    | some delta =>
      match convertDeltaToMessageChunk fresh delta
          (if shouldStreamUsage instanceFlag optionFlag then data.usage
           else none) with
      | .error e => .error e
      | .ok none => .ok none
      | .ok (some message) =>
          .ok (some ⟨message, delta.content.getD "", 0, choice.index.getD 0⟩)

/-- C10 counterexample: two events with identical choices (same first choice,
same index and delta) but different usage snapshots produce different chunks
(with usage streaming at its default), so the first choice's index and delta
alone do not determine the emitted chunk. -/
theorem claim_c10_counterexample :
    processEvent (fun _ => "") true none
        ⟨[⟨some 0, some ⟨none, some "hi", none⟩⟩], none⟩ =
      .ok (some ⟨.ai "hi" [] true none, "hi", 0, 0⟩) ∧
    processEvent (fun _ => "") true none
        ⟨[⟨some 0, some ⟨none, some "hi", none⟩⟩], some ⟨1, 2, 3⟩⟩ =
      .ok (some ⟨.ai "hi" [] true (some ⟨1, 2, 3⟩), "hi", 0, 0⟩) ∧
    (MessageChunk.ai "hi" [] true none) ≠
      (MessageChunk.ai "hi" [] true (some ⟨1, 2, 3⟩)) := by
  refine ⟨rfl, rfl, by decide⟩

/-- C10 (amended): each streaming event is processed from its first choice
only — additional choices are ignored; an event with no choices, or whose
first choice lacks a delta, yields no chunk and no error; and the emitted
chunk is determined by the first choice's index and delta together with the
event's usage snapshot (when the usage flag is on). -/
theorem claim_c10_first_choice_only (fresh : Nat → String) (instanceFlag : Bool)
    (optionFlag : Option Bool) :
    (∀ data : StreamEvent,
      processEvent fresh instanceFlag optionFlag data =
        processEvent fresh instanceFlag optionFlag
          ⟨data.choices.take 1, data.usage⟩) ∧
    (∀ usage, processEvent fresh instanceFlag optionFlag ⟨[], usage⟩ = .ok none) ∧
    (∀ i rest usage,
      processEvent fresh instanceFlag optionFlag ⟨⟨i, none⟩ :: rest, usage⟩ =
        .ok none) ∧
    (∀ i d rest usage,
      processEvent fresh instanceFlag optionFlag ⟨⟨i, some d⟩ :: rest, usage⟩ =
        match convertDeltaToMessageChunk fresh d
            (if shouldStreamUsage instanceFlag optionFlag then usage
             else none) with
        | .error e => .error e
        | .ok none => .ok none
        | .ok (some message) =>
            .ok (some ⟨message, d.content.getD "", 0, i.getD 0⟩)) := by
  refine ⟨?_, fun usage => rfl, fun i rest usage => rfl, fun i d rest usage => rfl⟩
  intro data
  cases data with
  | mk choices usage => cases choices <;> rfl

/-! ## Chunk aggregator: the streaming branch of `_generate`, lines 982-998 -/

/-- What the aggregation loop reads off each `ChatGenerationChunk`: its text
and the `generationInfo.completion` index (absent when the chunk carries no
index). -/
structure ChatGenChunk where
  text : String
  completionIndex : Option Nat
  deriving DecidableEq

/-- `(chunk.generationInfo as NewTokenIndices)?.completion ?? 0` (lines 986-987). -/
def chunkIdx (c : ChatGenChunk) : Nat := c.completionIndex.getD 0

/-- Lookup `finalChunks[index]` in the record, modelled as an association list
in insertion order. -/
def assocFind (m : List (Nat × α)) (i : Nat) : Option α :=
  match m with
  | [] => none
  | (j, c) :: rest => if j = i then some c else assocFind rest i

/-- Assignment `finalChunks[index] = v`: update an existing key in place, or
append a new key. -/
def recordSet (m : List (Nat × α)) (i : Nat) (v : α) : List (Nat × α) :=
  match m with
  | [] => [(i, v)]
  | (j, x) :: rest =>
    if j = i then (j, v) :: rest else (j, x) :: recordSet rest i v

/-- One iteration of the aggregation loop (lines 986-992): the first chunk for
an index seeds the accumulator, a later chunk is concatenated onto it via
`concat` (the external `ChatGenerationChunk.concat`, abstracted). -/
def aggStep (concat : ChatGenChunk → ChatGenChunk → ChatGenChunk)
    (m : List (Nat × ChatGenChunk)) (c : ChatGenChunk) :
    List (Nat × ChatGenChunk) :=
  match assocFind m (chunkIdx c) with
  | none => recordSet m (chunkIdx c) c
  | some old => recordSet m (chunkIdx c) (concat old c)

/-- The `finalChunks` record after the whole stream (lines 984-993). -/
def streamFinalChunks (concat : ChatGenChunk → ChatGenChunk → ChatGenChunk)
    (chunks : List ChatGenChunk) : List (Nat × ChatGenChunk) :=
  chunks.foldl (aggStep concat) []

/-- Insertion sort by numeric key, modelling
`Object.entries(finalChunks).sort((a, b) => parseInt(a) - parseInt(b))`
(lines 994-995); the keys are distinct, so any comparison sort produces this
list. -/
def insertByKey (p : Nat × α) : List (Nat × α) → List (Nat × α)
  | [] => [p]
  | q :: rest => if p.1 ≤ q.1 then p :: q :: rest else q :: insertByKey p rest

def sortByKey : List (Nat × α) → List (Nat × α)
  | [] => []
  | p :: rest => insertByKey p (sortByKey rest)

/-- The sorted entry list of lines 994-995. -/
def streamSortedEntries (concat : ChatGenChunk → ChatGenChunk → ChatGenChunk)
    (chunks : List ChatGenChunk) : List (Nat × ChatGenChunk) :=
  sortByKey (streamFinalChunks concat chunks)

/-- The final `generations` list (lines 994-998): the sorted accumulated
chunks, keys dropped. -/
def streamGenerations (concat : ChatGenChunk → ChatGenChunk → ChatGenChunk)
    (chunks : List ChatGenChunk) : List ChatGenChunk :=
  (streamSortedEntries concat chunks).map Prod.snd

/-- Specification side: insert an index into an ascending duplicate-free list. -/
def insertSortedDistinct (i : Nat) : List Nat → List Nat
  | [] => [i]
  | j :: rest =>
    if i < j then i :: j :: rest
    else if i = j then j :: rest
    else j :: insertSortedDistinct i rest

/-- Specification side: the distinct members of `l`, sorted ascending. -/
def sortedDistinct (l : List Nat) : List Nat := l.foldr insertSortedDistinct []

/-- Specification side: all chunks carrying index `i`, in arrival order. -/
def chunksFor (i : Nat) (chunks : List ChatGenChunk) : List ChatGenChunk :=
  chunks.filter (fun c => chunkIdx c = i)

/-- Specification side: the concatenation, in arrival order, of all chunks
carrying index `i` — the first seeds, every later one is concatenated on. -/
def combineFor (concat : ChatGenChunk → ChatGenChunk → ChatGenChunk)
    (i : Nat) (chunks : List ChatGenChunk) : Option ChatGenChunk :=
  match chunksFor i chunks with
  | [] => none
  | c :: cs => some (cs.foldl concat c)

theorem assocFind_recordSet_self (m : List (Nat × α)) (i : Nat) (v : α) :
    assocFind (recordSet m i v) i = some v := by
  induction m with
  | nil => simp [recordSet, assocFind]
  | cons p rest ih =>
    obtain ⟨j, x⟩ := p
    by_cases hj : j = i
    · simp [recordSet, hj, assocFind]
    · simp [recordSet, hj, assocFind, ih]

theorem assocFind_recordSet_ne (m : List (Nat × α)) (i : Nat) (v : α)
    (j : Nat) (hj : j ≠ i) :
    assocFind (recordSet m i v) j = assocFind m j := by
  induction m with
  | nil => simp [recordSet, assocFind, Ne.symm hj]
  | cons p rest ih =>
    obtain ⟨k, x⟩ := p
    by_cases hk : k = i
    · subst hk
      simp [recordSet, assocFind, Ne.symm hj]
    · simp [recordSet, hk, assocFind, ih]

theorem not_mem_of_assocFind_eq_none (m : List (Nat × α)) (i : Nat)
    (h : assocFind m i = none) : i ∉ m.map Prod.fst := by
  induction m with
  | nil => simp
  | cons p rest ih =>
    obtain ⟨j, x⟩ := p
    by_cases hj : j = i
    · subst hj
      simp [assocFind] at h
    · simp only [assocFind, if_neg hj] at h
      rw [List.map_cons, List.mem_cons]
      rintro (h1 | h1)
      · exact hj h1.symm
      · exact ih h h1

theorem keys_recordSet_mem (m : List (Nat × α)) (i : Nat) (v : α)
    (h : i ∈ m.map Prod.fst) :
    (recordSet m i v).map Prod.fst = m.map Prod.fst := by
  induction m with
  | nil => cases h
  | cons p rest ih =>
    obtain ⟨j, x⟩ := p
    by_cases hj : j = i
    · simp [recordSet, hj]
    · have h' : i ∈ rest.map Prod.fst := by
        rcases List.mem_cons.mp h with h | h
        · exact absurd h.symm hj
        · exact h
      simp [recordSet, hj, ih h']

theorem keys_recordSet_not_mem (m : List (Nat × α)) (i : Nat) (v : α)
    (h : i ∉ m.map Prod.fst) :
    (recordSet m i v).map Prod.fst = m.map Prod.fst ++ [i] := by
  induction m with
  | nil => rfl
  | cons p rest ih =>
    obtain ⟨j, x⟩ := p
    have hj : j ≠ i := by
      intro hji
      exact h (by simp [hji])
    have h' : i ∉ rest.map Prod.fst := by
      intro hmem
      exact h (by simp [hmem])
    simp [recordSet, hj, ih h']

theorem assocFind_eq_some_of_mem (m : List (Nat × α))
    (hnd : (m.map Prod.fst).Nodup) (i : Nat) (v : α) (h : (i, v) ∈ m) :
    assocFind m i = some v := by
  induction m with
  | nil => cases h
  | cons p rest ih =>
    obtain ⟨j, x⟩ := p
    rw [List.map_cons] at hnd
    rcases List.mem_cons.mp h with h | h
    · cases h
      simp [assocFind]
    · have hj : j ≠ i := by
        intro hji
        subst hji
        exact (List.nodup_cons.mp hnd).1
          (List.mem_map.mpr ⟨(j, v), h, rfl⟩)
      simp [assocFind, hj, ih (List.nodup_cons.mp hnd).2 h]

theorem mem_of_assocFind_eq_some (m : List (Nat × α)) (i : Nat) (v : α)
    (h : assocFind m i = some v) : (i, v) ∈ m := by
  induction m with
  | nil => cases h
  | cons p rest ih =>
    obtain ⟨j, x⟩ := p
    by_cases hj : j = i
    · subst hj
      simp [assocFind] at h
      subst h
      exact List.mem_cons_self _ _
    · simp [assocFind, hj] at h
      exact List.mem_cons_of_mem _ (ih h)

theorem streamFinalChunks_append
    (concat : ChatGenChunk → ChatGenChunk → ChatGenChunk)
    (chunks : List ChatGenChunk) (c : ChatGenChunk) :
    streamFinalChunks concat (chunks ++ [c]) =
      aggStep concat (streamFinalChunks concat chunks) c := by
  unfold streamFinalChunks
  rw [List.foldl_append]
  rfl

theorem chunksFor_append_one (i : Nat) (chunks : List ChatGenChunk)
    (c : ChatGenChunk) :
    chunksFor i (chunks ++ [c]) =
      chunksFor i chunks ++ (if chunkIdx c = i then [c] else []) := by
  unfold chunksFor
  rw [List.filter_append]
  congr 1
  by_cases h : chunkIdx c = i
  · simp [h]
  · simp [h]

theorem combineFor_append_ne
    (concat : ChatGenChunk → ChatGenChunk → ChatGenChunk)
    (i : Nat) (chunks : List ChatGenChunk) (c : ChatGenChunk)
    (h : chunkIdx c ≠ i) :
    combineFor concat i (chunks ++ [c]) = combineFor concat i chunks := by
  unfold combineFor
  rw [chunksFor_append_one, if_neg h, List.append_nil]

theorem combineFor_append_eq
    (concat : ChatGenChunk → ChatGenChunk → ChatGenChunk)
    (i : Nat) (chunks : List ChatGenChunk) (c : ChatGenChunk)
    (h : chunkIdx c = i) :
    combineFor concat i (chunks ++ [c]) =
      some (match combineFor concat i chunks with
            | none => c
            | some acc => concat acc c) := by
  unfold combineFor
  rw [chunksFor_append_one, if_pos h]
  cases hf : chunksFor i chunks with
  | nil => rfl
  | cons d ds =>
    rw [List.cons_append]
    show some (List.foldl concat d (ds ++ [c])) = _
    rw [List.foldl_append]
    rfl

theorem streamFinalChunks_find
    (concat : ChatGenChunk → ChatGenChunk → ChatGenChunk)
    (chunks : List ChatGenChunk) :
    ∀ i, assocFind (streamFinalChunks concat chunks) i =
      combineFor concat i chunks := by
  induction chunks using List.reverseRecOn with
  | nil => intro i; rfl
  | append_singleton l c ih =>
    intro i
    rw [streamFinalChunks_append]
    unfold aggStep
    rw [ih (chunkIdx c)]
    by_cases hidx : chunkIdx c = i
    · subst hidx
      rw [combineFor_append_eq concat (chunkIdx c) l c rfl]
      cases hcomb : combineFor concat (chunkIdx c) l with
      | none => exact assocFind_recordSet_self _ _ _
      | some acc => exact assocFind_recordSet_self _ _ _
    · rw [combineFor_append_ne concat i l c hidx]
      cases hcomb : combineFor concat (chunkIdx c) l with
      | none =>
        rw [assocFind_recordSet_ne _ _ _ _ (Ne.symm hidx)]
        exact ih i
      | some acc =>
        rw [assocFind_recordSet_ne _ _ _ _ (Ne.symm hidx)]
        exact ih i

theorem streamFinalChunks_keys
    (concat : ChatGenChunk → ChatGenChunk → ChatGenChunk)
    (chunks : List ChatGenChunk) :
    ((streamFinalChunks concat chunks).map Prod.fst).Nodup ∧
    (∀ i, i ∈ (streamFinalChunks concat chunks).map Prod.fst ↔
      i ∈ chunks.map chunkIdx) := by
  induction chunks using List.reverseRecOn with
  | nil => exact ⟨List.nodup_nil, fun i => by simp [streamFinalChunks]⟩
  | append_singleton l c ih =>
    obtain ⟨hnd, hmem⟩ := ih
    rw [streamFinalChunks_append]
    unfold aggStep
    cases hfind : assocFind (streamFinalChunks concat l) (chunkIdx c) with
    | none =>
      have hnot : chunkIdx c ∉ (streamFinalChunks concat l).map Prod.fst :=
        not_mem_of_assocFind_eq_none _ _ hfind
      rw [keys_recordSet_not_mem _ _ _ hnot]
      constructor
      · refine hnd.append (List.nodup_singleton _) ?_
        intro x hx hx'
        rw [List.mem_singleton] at hx'
        subst hx'
        exact hnot hx
      · intro i
        simp only [List.mem_append, List.mem_singleton, List.map_append,
          List.map_cons, List.map_nil, hmem i]
    | some old =>
      have hmem0 : chunkIdx c ∈ (streamFinalChunks concat l).map Prod.fst :=
        List.mem_map.mpr ⟨(chunkIdx c, old), mem_of_assocFind_eq_some _ _ _ hfind, rfl⟩
      rw [keys_recordSet_mem _ _ _ hmem0]
      refine ⟨hnd, ?_⟩
      intro i
      rw [List.map_append, List.map_cons, List.map_nil, List.mem_append,
        List.mem_singleton]
      constructor
      · intro h
        exact Or.inl ((hmem i).mp h)
      · rintro (h | rfl)
        · exact (hmem i).mpr h
        · exact hmem0

theorem insertByKey_perm (p : Nat × α) (l : List (Nat × α)) :
    List.Perm (insertByKey p l) (p :: l) := by
  induction l with
  | nil => exact List.Perm.refl _
  | cons q rest ih =>
    by_cases h : p.1 ≤ q.1
    · simp only [insertByKey, if_pos h]
      exact List.Perm.refl _
    · simp only [insertByKey, if_neg h]
      exact (ih.cons q).trans (List.Perm.swap p q rest)

theorem sortByKey_perm (l : List (Nat × α)) : List.Perm (sortByKey l) l := by
  induction l with
  | nil => exact List.Perm.refl _
  | cons p rest ih =>
    simp only [sortByKey]
    exact (insertByKey_perm p (sortByKey rest)).trans (ih.cons p)

theorem insertByKey_pairwise (p : Nat × α) (l : List (Nat × α))
    (h : l.Pairwise (fun a b => a.1 ≤ b.1)) :
    (insertByKey p l).Pairwise (fun a b => a.1 ≤ b.1) := by
  induction l with
  | nil => simp [insertByKey]
  | cons q rest ih =>
    rw [List.pairwise_cons] at h
    obtain ⟨hq, hrest⟩ := h
    by_cases hle : p.1 ≤ q.1
    · simp only [insertByKey, if_pos hle]
      rw [List.pairwise_cons]
      refine ⟨?_, ?_⟩
      · intro b hb
        rcases List.mem_cons.mp hb with rfl | hb
        · exact hle
        · exact Nat.le_trans hle (hq b hb)
      · rw [List.pairwise_cons]
        exact ⟨hq, hrest⟩
    · simp only [insertByKey, if_neg hle]
      rw [List.pairwise_cons]
      refine ⟨?_, ih hrest⟩
      intro b hb
      have hb' : b ∈ p :: rest := (insertByKey_perm p rest).mem_iff.mp hb
      rcases List.mem_cons.mp hb' with rfl | hb'
      · exact Nat.le_of_not_le hle
      · exact hq b hb'

theorem sortByKey_pairwise (l : List (Nat × α)) :
    (sortByKey l).Pairwise (fun a b => a.1 ≤ b.1) := by
  induction l with
  | nil => simp [sortByKey]
  | cons p rest ih =>
    simp only [sortByKey]
    exact insertByKey_pairwise p _ ih

theorem mem_insertSortedDistinct (i j : Nat) (L : List Nat) :
    j ∈ insertSortedDistinct i L ↔ j = i ∨ j ∈ L := by
  induction L with
  | nil => simp [insertSortedDistinct]
  | cons k rest ih =>
    by_cases h1 : i < k
    · simp only [insertSortedDistinct, if_pos h1]
      simp [List.mem_cons]
    · by_cases h2 : i = k
      · subst h2
        simp only [insertSortedDistinct, if_neg h1, if_pos rfl]
        constructor
        · intro h
          exact Or.inr h
        · rintro (rfl | h)
          · exact List.mem_cons_self _ _
          · exact h
      · simp only [insertSortedDistinct, if_neg h1, if_neg h2]
        rw [List.mem_cons, ih, List.mem_cons]
        tauto

theorem pairwise_insertSortedDistinct (i : Nat) (L : List Nat)
    (h : L.Pairwise (· < ·)) :
    (insertSortedDistinct i L).Pairwise (· < ·) := by
  induction L with
  | nil => simp [insertSortedDistinct]
  | cons k rest ih =>
    rw [List.pairwise_cons] at h
    obtain ⟨hk, hrest⟩ := h
    by_cases h1 : i < k
    · simp only [insertSortedDistinct, if_pos h1]
      rw [List.pairwise_cons]
      refine ⟨?_, ?_⟩
      · intro b hb
        rcases List.mem_cons.mp hb with rfl | hb
        · exact h1
        · exact Nat.lt_trans h1 (hk b hb)
      · rw [List.pairwise_cons]
        exact ⟨hk, hrest⟩
    · by_cases h2 : i = k
      · subst h2
        have heq : insertSortedDistinct i (i :: rest) = i :: rest := by
          simp [insertSortedDistinct, h1]
        rw [heq, List.pairwise_cons]
        exact ⟨hk, hrest⟩
      · simp only [insertSortedDistinct, if_neg h1, if_neg h2]
        rw [List.pairwise_cons]
        refine ⟨?_, ih hrest⟩
        intro b hb
        have hki : k < i :=
          Nat.lt_of_le_of_ne (Nat.le_of_not_lt h1) (fun he => h2 he.symm)
        rcases (mem_insertSortedDistinct i b rest).mp hb with rfl | hb
        · exact hki
        · exact hk b hb

theorem mem_sortedDistinct (l : List Nat) (i : Nat) :
    i ∈ sortedDistinct l ↔ i ∈ l := by
  induction l with
  | nil => simp [sortedDistinct]
  | cons a l ih =>
    show i ∈ insertSortedDistinct a (sortedDistinct l) ↔ _
    rw [mem_insertSortedDistinct, ih, List.mem_cons]

theorem pairwise_sortedDistinct (l : List Nat) :
    (sortedDistinct l).Pairwise (· < ·) := by
  induction l with
  | nil => simp [sortedDistinct]
  | cons a l ih => exact pairwise_insertSortedDistinct a _ ih

theorem eq_of_sorted_of_mem_iff :
    ∀ (l1 l2 : List Nat), l1.Pairwise (· ≤ ·) → l1.Nodup →
      l2.Pairwise (· ≤ ·) → l2.Nodup → (∀ x, x ∈ l1 ↔ x ∈ l2) → l1 = l2 := by
  intro l1
  induction l1 with
  | nil =>
    intro l2 _ _ _ _ hm
    cases l2 with
    | nil => rfl
    | cons b t2 =>
      exact absurd ((hm b).mpr (List.mem_cons_self _ _)) (List.not_mem_nil b)
  | cons a t1 ih =>
    intro l2 h1 hn1 h2 hn2 hm
    cases l2 with
    | nil =>
      exact absurd ((hm a).mp (List.mem_cons_self _ _)) (List.not_mem_nil a)
    | cons b t2 =>
      rw [List.pairwise_cons] at h1 h2
      have hab : a = b := by
        rcases List.mem_cons.mp ((hm a).mp (List.mem_cons_self _ _)) with h | h
        · exact h
        · rcases List.mem_cons.mp ((hm b).mpr (List.mem_cons_self _ _)) with h' | h'
          · exact h'.symm
          · exact Nat.le_antisymm (h1.1 b h') (h2.1 a h)
      subst hab
      have hm' : ∀ x, x ∈ t1 ↔ x ∈ t2 := by
        intro x
        constructor
        · intro hx
          rcases List.mem_cons.mp ((hm x).mp (List.mem_cons_of_mem a hx)) with rfl | h
          · exact absurd hx (List.nodup_cons.mp hn1).1
          · exact h
        · intro hx
          rcases List.mem_cons.mp ((hm x).mpr (List.mem_cons_of_mem a hx)) with rfl | h
          · exact absurd hx (List.nodup_cons.mp hn2).1
          · exact h
      rw [ih t2 h1.2 (List.nodup_cons.mp hn1).2 h2.2 (List.nodup_cons.mp hn2).2 hm']

theorem map_snd_eq_filterMap (g : Nat → Option ChatGenChunk) :
    ∀ (es : List (Nat × ChatGenChunk)),
      (∀ i v, (i, v) ∈ es → g i = some v) →
      es.map Prod.snd = (es.map Prod.fst).filterMap g := by
  intro es
  induction es with
  | nil => intro _; rfl
  | cons p rest ih =>
    intro hg
    obtain ⟨i, v⟩ := p
    show v :: List.map Prod.snd rest =
      List.filterMap g (i :: List.map Prod.fst rest)
    rw [List.filterMap_cons_some (hg i v (List.mem_cons_self _ _))]
    rw [ih (fun j w hw => hg j w (List.mem_cons_of_mem _ hw))]

/-- C1: for any finite chunk stream and any concatenation operation, the
aggregated final generation list of the streaming branch of `_generate` is
exactly one entry per distinct completion index (default 0 when absent),
ordered ascending by index, each entry being the fold, in arrival order, of
all chunks carrying that index — the first chunk seeds the accumulator, every
later one is concatenated onto it; and every listed index indeed has an
accumulated entry. -/
theorem claim_c1_stream_aggregation
    (concat : ChatGenChunk → ChatGenChunk → ChatGenChunk)
    (chunks : List ChatGenChunk) :
    streamGenerations concat chunks =
      (sortedDistinct (chunks.map chunkIdx)).filterMap
        (fun i => combineFor concat i chunks) ∧
    (sortedDistinct (chunks.map chunkIdx)).all
      (fun i => (combineFor concat i chunks).isSome) = true := by
  have hperm : List.Perm (streamSortedEntries concat chunks)
      (streamFinalChunks concat chunks) := sortByKey_perm _
  obtain ⟨hnd, hmem⟩ := streamFinalChunks_keys concat chunks
  have hndes : ((streamSortedEntries concat chunks).map Prod.fst).Nodup :=
    (hperm.map Prod.fst).nodup_iff.mpr hnd
  have hkeys : (streamSortedEntries concat chunks).map Prod.fst =
      sortedDistinct (chunks.map chunkIdx) := by
    apply eq_of_sorted_of_mem_iff
    · exact List.Pairwise.map Prod.fst (fun a b h => h) (sortByKey_pairwise _)
    · exact hndes
    · exact (pairwise_sortedDistinct _).imp (fun h => Nat.le_of_lt h)
    · exact (pairwise_sortedDistinct _).imp (fun h => Nat.ne_of_lt h)
    · intro x
      rw [(hperm.map Prod.fst).mem_iff, hmem x, mem_sortedDistinct]
  have hfindes : ∀ i v, (i, v) ∈ streamSortedEntries concat chunks →
      combineFor concat i chunks = some v := by
    intro i v hv
    rw [← streamFinalChunks_find concat chunks i]
    exact assocFind_eq_some_of_mem _ hnd i v (hperm.mem_iff.mp hv)
  constructor
  · unfold streamGenerations
    rw [map_snd_eq_filterMap _ _ hfindes, hkeys]
  · rw [List.all_eq_true]
    intro i hi
    have hi' : i ∈ chunks.map chunkIdx := (mem_sortedDistinct _ i).mp hi
    obtain ⟨c, hc, rfl⟩ := List.mem_map.mp hi'
    have hmemf : c ∈ chunksFor (chunkIdx c) chunks :=
      List.mem_filter.mpr ⟨hc, by simp⟩
    unfold combineFor
    cases hf : chunksFor (chunkIdx c) chunks with
    | nil =>
      rw [hf] at hmemf
      cases hmemf
    | cons d ds => rfl

end Mistral
